import Mathlib

/-!
# metabase-git-sync: a verification development for `server.js`

The script mirrors a remote hierarchy of collections and cards into a directory tree and
commits it.  This file embeds the script's functions in Lean and proves properties of them.

Modelling conventions.

* Identifiers are the remote's numeric ids, rendered in decimal by template literals.
* An `async` function is a function returning a `Res`: it resolves with a value, rejects with
  an error, or (for the unbounded recursion of `getCollectionItems`) runs out of fuel.
* A request written `fetch(..).then(..).catch(err => console.error(err))` yields `none`
  (JavaScript `undefined`) when the request fails.  Console output is not modelled.
* The filesystem is a map from paths (lists of components, relative to the working directory)
  to entries; every `FS` call of the script is also appended to a trace.
* A path string is kept as its normalised list of components: `path.join` cuts a name at its
  separators `/` and resolves `.` and `..`, so a slug such as `a/b` yields two directories.
-/

namespace MetabaseGitSync

/-! ## JavaScript values and outcomes -/

/-- Errors raised by the modelled code. -/
inductive JSError where
  /-- A `TypeError`: a property read on `undefined`, or a non-string passed to `path.join`. -/
  | typeError
  /-- A rejected promise of an external collaborator that the script does not catch. -/
  | rejected
  deriving DecidableEq, Repr

/-- Outcome of awaiting an `async` function. -/
inductive Res (α : Type) where
  /-- The promise resolved with a value. -/
  | ok (a : α)
  /-- The promise rejected. -/
  | throws (e : JSError)
  /-- The recursion did not finish within the fuel given. -/
  | outOfFuel
  deriving Repr

/-- JavaScript truthiness of an optional string (`undefined` and `''` are falsy). -/
def truthy : Option String → Bool
  | none => false
  | some s => s != ""

/-- Template-literal rendering of an optional string (`undefined` prints as `undefined`). -/
def render : Option String → String
  | none => "undefined"
  | some s => s

/-! ## Data model -/

/-- A native query: `dataset_query.native`. -/
structure NativeQuery where
  query : Option String
  deriving DecidableEq, Repr

/-- The `dataset_query` of a card: a native part and/or a structured (builder) part. -/
structure DatasetQuery where
  native : Option NativeQuery
  query : Option String
  deriving DecidableEq, Repr

/-- A card record as listed by `/api/card/`. -/
structure Card where
  id : Nat
  query_type : Option String
  dataset_query : Option DatasetQuery
  deriving DecidableEq, Repr

/-- A card record after `getCards` enriched it with `_serial`. -/
structure CardRec where
  record : Card
  _serial : Option String
  deriving DecidableEq, Repr

/-- The `cardMap` object: card id to enriched record. -/
abbrev CardMap := Nat → Option CardRec

/-- A raw entry of the remote hierarchy, as returned by `/api/collection/tree` and
`/api/collection/:id/items`. -/
structure Item where
  id : Nat
  slug : Option String
  model : Option String
  deriving DecidableEq, Repr

/-- A tree node: a remote entry, with `_items` once `buildTree` expanded it and `_card` once
`writeNode` visited it as a card. -/
inductive Node where
  | mk (id : Nat) (slug : Option String) (model : Option String)
      (_items : Option (List Node)) (_card : Option CardRec)

namespace Node

/-- Field `id`. -/
def id : Node → Nat
  | mk i _ _ _ _ => i

/-- Field `slug`. -/
def slug : Node → Option String
  | mk _ s _ _ _ => s

/-- Field `model`. -/
def model : Node → Option String
  | mk _ _ m _ _ => m

/-- Field `_items`. -/
def _items : Node → Option (List Node)
  | mk _ _ _ l _ => l

/-- Field `_card`. -/
def _card : Node → Option CardRec
  | mk _ _ _ _ c => c

end Node

/-- The test `'_items' in node || node.model === 'collection'` of `writeNode`. -/
def Node.isContainer (n : Node) : Bool :=
  n._items.isSome || n.model == some "collection"

/-- The object a remote entry parses to: no `_items`, no `_card`. -/
def Item.toNode (e : Item) : Node := .mk e.id e.slug e.model none none

/-- Assignment `item._items = items`. -/
def Node.setItems : Node → List Node → Node
  | .mk i s m _ c, l => .mk i s m (some l) c

/-! ## Remote client and tree builder -/

/-- Body of the answer of `/api/collection/:id/items`. -/
structure ItemsResponse where
  data : Option (List Item)
  deriving Repr

/-- The remote service as seen by the tree builder.  `none` is a failed request. -/
structure Remote where
  /-- The answer of `/api/collection/tree?tree=true`. -/
  tree : Option (List Item)
  /-- The answer of `/api/collection/:id/items`. -/
  items : Nat → Option ItemsResponse

/-- The loop of `getCollectionItems` over `response.data`; `recur` is the recursive call. -/
def getCollectionItems.loop (recur : Nat → Res (List Node)) : List Item → Res (List Node)
  | [] => .ok []
  | item :: rest =>
    if item.model = some "collection" then
      match recur item.id with
      | .ok its =>
        match getCollectionItems.loop recur rest with
        | .ok ns => .ok (item.toNode.setItems its :: ns)
        | .throws e => .throws e
        | .outOfFuel => .outOfFuel
      | .throws e => .throws e
      | .outOfFuel => .outOfFuel
    else
      match getCollectionItems.loop recur rest with
      | .ok ns => .ok (item.toNode :: ns)
      | .throws e => .throws e
      | .outOfFuel => .outOfFuel

/-- `getCollectionItems(token, id)`, with fuel for the recursion depth. -/
def getCollectionItems (r : Remote) : Nat → Nat → Res (List Node)
  | 0, _ => .outOfFuel
  | fuel + 1, id =>
    match r.items id with
    | none => .throws .typeError
    | some response =>
      match response.data with
      | none => .throws .typeError
      | some data => getCollectionItems.loop (getCollectionItems r fuel) data

/-- The loop of `buildTree` over the roots: every root gets `_items`. -/
def buildTree.loop (r : Remote) (fuel : Nat) : List Item → Res (List Node)
  | [] => .ok []
  | node :: rest =>
    match getCollectionItems r fuel node.id with
    | .ok its =>
      match buildTree.loop r fuel rest with
      | .ok ns => .ok (node.toNode.setItems its :: ns)
      | .throws e => .throws e
      | .outOfFuel => .outOfFuel
    | .throws e => .throws e
    | .outOfFuel => .outOfFuel

/-- `buildTree(token)`. -/
def buildTree (r : Remote) (fuel : Nat) : Res (List Node) :=
  match r.tree with
  | none => .throws .typeError
  | some tree => buildTree.loop r fuel tree

/-! ## Artifact resolver -/

/-- Body of the answer of `/api/dataset/native`. -/
structure CompileResponse where
  query : Option String
  deriving Repr

/-- The remote service as seen by `getCards`.  `none` is a failed request. -/
structure CardRemote where
  /-- The answer of `/api/card/`. -/
  cards : Option (List Card)
  /-- The answer of `/api/dataset/native` for a posted `dataset_query`. -/
  native : Option DatasetQuery → Option CompileResponse

/-- Assignment `cardMap[id] = rec`. -/
def CardMap.set (m : CardMap) (id : Nat) (rec : CardRec) : CardMap :=
  fun k => if k = id then some rec else m k

/-- The loop of `getCards` over the listed cards. -/
def getCards.loop (r : CardRemote) : List Card → CardMap → Res CardMap
  | [], cardMap => .ok cardMap
  | c :: rest, cardMap =>
    if c.query_type = some "native" then
      getCards.loop r rest
        (cardMap.set c.id ⟨c, (c.dataset_query.bind (·.native)).bind (·.query)⟩)
    else if c.query_type = some "query" then
      match r.native c.dataset_query with
      | none => .throws .typeError
      | some sqlResponse => getCards.loop r rest (cardMap.set c.id ⟨c, sqlResponse.query⟩)
    else
      getCards.loop r rest (cardMap.set c.id ⟨c, none⟩)

/-- `getCards(token)`. -/
def getCards (r : CardRemote) : Res CardMap :=
  match r.cards with
  | none => .throws .typeError
  | some response => getCards.loop r response (fun _ => none)

/-! ## Version control -/

/-- The result object of `git.commit`; `commit` is empty when nothing was committed. -/
structure CommitResult where
  commit : String
  deriving DecidableEq, Repr

/-- The `simple-git` instance as seen by the script.  `none` is a rejected promise. -/
structure Git where
  /-- Outcome of `git.add('.')`. -/
  add : Option Unit
  /-- Outcome of `git.commit(msg)`. -/
  commit : String → Option CommitResult
  /-- Outcome of `git.raw('rev-parse', 'HEAD')`. -/
  revParseHead : Option String

/-- `gitCommitAll(git, msg)`. -/
def gitCommitAll (git : Git) (msg : String) : Res (Option CommitResult) :=
  match git.add with
  | none => .throws .rejected
  | some _ =>
    match git.commit msg with
    | none => .throws .typeError
    | some commitResult =>
      if commitResult.commit ≠ "" then .ok (some commitResult) else .ok none

/-- The characters `String.prototype.trim` strips: JavaScript white space and line
terminators. -/
def isTrimmable (c : Char) : Bool :=
  [9, 10, 11, 12, 13, 32, 160, 5760, 8232, 8233, 8239, 8287, 12288, 65279].contains c.toNat
    || (8192 ≤ c.toNat && c.toNat ≤ 8202)

/-- `String.prototype.trim`. -/
def trim (s : String) : String :=
  String.mk ((s.data.dropWhile isTrimmable).reverse.dropWhile isTrimmable).reverse

/-- `gitGetHeadCommit(git)`. -/
def gitGetHeadCommit (git : Git) : Res String :=
  match git.revParseHead with
  | none => .throws .rejected
  | some latestCommit => .ok (trim latestCommit)

/-- The commit step of the main script; resolves with `commitResult.commit`. -/
def commitStep (git : Git) (freshRepo : Bool) : Res String :=
  let commitMsg := if freshRepo then "Init Metabase Git Migration" else "Sync Metabase Git"
  match gitCommitAll git commitMsg with
  | .throws e => .throws e
  | .outOfFuel => .outOfFuel
  | .ok (some commitResult) => .ok commitResult.commit
  | .ok none =>
    match gitGetHeadCommit git with
    | .ok latestCommit => .ok latestCommit
    | .throws e => .throws e
    | .outOfFuel => .outOfFuel

/-! ## Filesystem -/

/-- A path relative to the working directory, as its list of components. -/
abbrev Path := List String

/-- What a written file holds. -/
inductive Content where
  /-- The text `JSON.stringify(node, null, 2)`. -/
  | json (node : Node)
  /-- The given text, verbatim. -/
  | text (s : String)

/-- An entry of the filesystem. -/
inductive FSEntry where
  | dir
  | file (c : Content)

/-- The filesystem below the working directory; `none` is an absent path. -/
abbrev FS := Path → Option FSEntry

/-- The entry is a directory. -/
def FSEntry.isDir : Option FSEntry → Bool
  | some .dir => true
  | _ => false

/-- The entry is a file. -/
def FSEntry.isFile : Option FSEntry → Bool
  | some (.file _) => true
  | _ => false

/-- The path is a directory; the working directory itself always is. -/
def FS.dirAt (fs : FS) (p : Path) : Bool :=
  p.isEmpty || FSEntry.isDir (fs p)

/-- The path is a file. -/
def FS.fileAt (fs : FS) (p : Path) : Bool :=
  !p.isEmpty && FSEntry.isFile (fs p)

/-- Some component on the way to `p`, or `p` itself, is a file: `p` cannot be a directory. -/
def FS.blocked (fs : FS) (p : Path) : Bool :=
  p.inits.any fs.fileAt

/-- `FS.mkdir(p, { recursive: true })` with its rejection caught: creates `p` and its missing
ancestors, does nothing when `p` is already a directory, fails when a file is in the way. -/
def FS.mkdir (fs : FS) (p : Path) : FS :=
  if fs.blocked p then fs
  else fun q => if !q.isEmpty && q.isPrefixOf p then some .dir else fs q

/-- A file can be written at `p`: its parent is a directory and `p` is not one. -/
def FS.writable (fs : FS) (p : Path) : Bool :=
  !p.isEmpty && fs.dirAt p.dropLast && !FSEntry.isDir (fs p)

/-- `FS.writeFile(p, c)` with its rejection caught: creates or replaces the file `p`; fails
when the parent is not a directory or `p` is a directory. -/
def FS.writeFile (fs : FS) (p : Path) (c : Content) : FS :=
  if fs.writable p then fun q => if q = p then some (.file c) else fs q
  else fs

/-- A filesystem call issued by the script. -/
inductive Op where
  | mkdir (p : Path)
  | writeFile (p : Path) (c : Content)

/-- The path a call targets. -/
def Op.target : Op → Path
  | .mkdir p => p
  | .writeFile p _ => p

/-- The state `writeNode` works on: the filesystem, the `cardPathMapper` object and the
filesystem calls issued so far. -/
structure St where
  fs : FS
  cardPathMapper : Nat → Option Path
  trace : List Op

/-- `await FS.mkdir(p, { recursive: true }).catch(..)`. -/
def St.mkdir (st : St) (p : Path) : St :=
  { st with fs := st.fs.mkdir p, trace := st.trace ++ [.mkdir p] }

/-- `await FS.writeFile(p, c).catch(..)`. -/
def St.writeFile (st : St) (p : Path) (c : Content) : St :=
  { st with fs := st.fs.writeFile p c, trace := st.trace ++ [.writeFile p c] }

/-- Assignment `cardPathMapper[id] = path`. -/
def St.setPath (st : St) (id : Nat) (path : Path) : St :=
  { st with cardPathMapper := fun k => if k = id then some path else st.cardPathMapper k }

/-- The value of the variable `folderName`: the raw numeric id, or a string. -/
inductive FolderName where
  | num (n : Nat)
  | str (s : String)
  deriving DecidableEq, Repr

/-- The components of a path string on reading `cs`, `cur` being the component under way
(reversed): the string is cut at every `/`. -/
def components.go : List Char → List Char → List String
  | [], cur => [String.mk cur.reverse]
  | c :: cs, cur =>
    if c = '/' then String.mk cur.reverse :: components.go cs [] else components.go cs (c :: cur)

/-- The components of a path string: the pieces between its separators `/`. -/
def components (s : String) : List String :=
  components.go s.data []

/-- One step of path normalisation: an empty component and `.` are dropped, `..` removes the
component before it (and is kept at the start of a relative path), any other component is
appended. -/
def pushComponent (acc : Path) (seg : String) : Path :=
  if seg = "" ∨ seg = "." then acc
  else if seg = ".." then
    (if acc = [] ∨ acc.getLast? = some ".." then acc ++ [".."] else acc.dropLast)
  else acc ++ [seg]

/-- The path `path/name`, normalised as `path.join(path, name)` does: `name` is cut at its
separators and its components are resolved one by one from `path` (itself kept normalised).
A path handed to the filesystem un-normalised, as the template literal of the card metadata
file is, is read the same way. -/
def joinStr (path : Path) (name : String) : Path :=
  (components name).foldl pushComponent path

/-- `path.join(path, folderName)`: Node's `path.join` throws a `TypeError` when an argument is
not a string; otherwise it joins and normalises. -/
def join (path : Path) : FolderName → Except JSError Path
  | .num _ => .error .typeError
  | .str s => .ok (joinStr path s)

/-- The constant `RepoBuildPath`: the environment's `REPO_PATH` when set, else `repo`. -/
def RepoBuildPath (REPO_PATH : Option String) : String :=
  if truthy REPO_PATH then render REPO_PATH else "repo"

/-- The path `RepoBuildPath` as handed to `writeNode`, normalised. -/
def rootPath (REPO_PATH : Option String) : Path :=
  joinStr [] (RepoBuildPath REPO_PATH)

/-- What a run of `writeNode` leaves: the state, the visited objects as mutated, and the
exception if one was thrown. -/
structure Ran (α : Type) where
  st : St
  val : α
  err : Option JSError

/-- The value of `folderName` computed for a container. -/
def folderName (id : Nat) (slug : Option String) : FolderName :=
  if truthy slug then .str (toString id ++ "-" ++ render slug) else .num id

/-- The file name of a container's metadata. -/
def collectionMetadata (id : Nat) : String :=
  "collection-" ++ toString id ++ "-metadata.json"

/-- The file name of a card's metadata. -/
def cardMetadata (model : Option String) (id : Nat) : String :=
  render model ++ "-" ++ toString id ++ "-metadata.json"

/-- The file name of a card's serialized body. -/
def cardSql (model : Option String) (id : Nat) : String :=
  render model ++ "-" ++ toString id ++ ".sql"

mutual
/-- `writeNode(cardPathMapper, cardMap, node, path)`. -/
def writeNode (cardMap : CardMap) : St → Node → Path → Ran Node
  | st, .mk id slug model _items _card, path =>
    if (Node.mk id slug model _items _card).isContainer then
      match join path (folderName id slug) with
      | .error e => ⟨st, .mk id slug model _items _card, some e⟩
      | .ok dir =>
        let st := st.mkdir dir
        let st := st.writeFile (joinStr dir (collectionMetadata id)) (.json (.mk id slug model _items _card))
        match _items with
        | none => ⟨st, .mk id slug model _items _card, some .typeError⟩
        | some children =>
          let r := writeItems cardMap st children dir
          ⟨r.st, .mk id slug model (some r.val) _card, r.err⟩
    else
      match cardMap id with
      | none => ⟨st, .mk id slug model _items _card, none⟩
      | some cardNode =>
        let st := st.writeFile (joinStr path (cardMetadata model id)) (.json (.mk id slug model _items _card))
        let st := st.setPath id path
        if truthy cardNode._serial then
          ⟨st.writeFile (joinStr path (cardSql model id)) (.text (render cardNode._serial)),
            .mk id slug model _items (some cardNode), none⟩
        else ⟨st, .mk id slug model _items (some cardNode), none⟩
/-- The loop of `writeNode` over `node._items`. -/
def writeItems (cardMap : CardMap) : St → List Node → Path → Ran (List Node)
  | st, [], _ => ⟨st, [], none⟩
  | st, child :: rest, path =>
    let r := writeNode cardMap st child path
    match r.err with
    | some e => ⟨r.st, r.val :: rest, some e⟩
    | none =>
      let r' := writeItems cardMap r.st rest path
      ⟨r'.st, r.val :: r'.val, r'.err⟩
end

/-- The loop of `buildFS` over the top-level nodes. -/
def buildFS.loop (cardMap : CardMap) (root : Path) : St → List Node → Ran (List Node)
  | st, [] => ⟨st, [], none⟩
  | st, node :: rest =>
    let r := writeNode cardMap st node root
    match r.err with
    | some e => ⟨r.st, r.val :: rest, some e⟩
    | none =>
      let r' := buildFS.loop cardMap root r.st rest
      ⟨r'.st, r.val :: r'.val, r'.err⟩

/-- What `buildFS` leaves behind. -/
structure Built where
  /-- The filesystem after the run. -/
  fs : FS
  /-- The filesystem calls issued, in order. -/
  trace : List Op
  /-- The tree objects after the run. -/
  tree : List Node
  /-- The returned `cardPathMapper`, or the exception thrown. -/
  result : Except JSError (Nat → Option Path)

/-- `buildFS(tree, cardMap)`, run on the filesystem `fs`. -/
def buildFS (REPO_PATH : Option String) (tree : List Node) (cardMap : CardMap) (fs : FS) : Built :=
  let r := buildFS.loop cardMap (rootPath REPO_PATH) ⟨fs, fun _ => none, []⟩ tree
  { fs := r.st.fs, trace := r.st.trace, tree := r.val,
    result := match r.err with
      | some e => .error e
      | none => .ok r.st.cardPathMapper }

/-- The filesystem with nothing below the working directory. -/
def FS.empty : FS := fun _ => none

/-! ## Specification of the expanded hierarchy -/

/-- The child list `data` returned by the remote, expanded as the tree builder is specified to:
an entry of model `collection` carries as `_items` the expansion of the remote's child list for
its id, any other entry is kept as returned; order is the remote's. -/
inductive Expands (r : Remote) : List Item → List Node → Prop where
  | nil : Expands r [] []
  | collection {e : Item} {es data : List Item} {its ns : List Node} :
      e.model = some "collection" → r.items e.id = some ⟨some data⟩ →
      Expands r data its → Expands r es ns →
      Expands r (e :: es) (.mk e.id e.slug e.model (some its) none :: ns)
  | artifact {e : Item} {es : List Item} {ns : List Node} :
      e.model ≠ some "collection" → Expands r es ns →
      Expands r (e :: es) (.mk e.id e.slug e.model none none :: ns)

/-- The roots returned by the remote, each carrying as `_items` the expansion of the remote's
child list for its id. -/
inductive ExpandsRoots (r : Remote) : List Item → List Node → Prop where
  | nil : ExpandsRoots r [] []
  | root {e : Item} {es data : List Item} {its ns : List Node} :
      r.items e.id = some ⟨some data⟩ → Expands r data its → ExpandsRoots r es ns →
      ExpandsRoots r (e :: es) (.mk e.id e.slug e.model (some its) none :: ns)

/-- The ids the hierarchy consists of: the roots, and the entries of model `collection` among
the children of such an id. -/
inductive Reach (r : Remote) (roots : List Item) : Nat → Prop where
  | root {e : Item} : e ∈ roots → Reach r roots e.id
  | child {id : Nat} {data : List Item} {e : Item} :
      Reach r roots id → r.items id = some ⟨some data⟩ → e ∈ data →
      e.model = some "collection" → Reach r roots e.id

/-! ## Specification of the enriched card map -/

/-- What `getCards` is specified to store under key `k`: a listed record with id `k`, carrying
as `_serial` its own native query text, or the compile endpoint's answer for its structured
query, or nothing for any other query type. -/
def Enriched (r : CardRemote) (cards : List Card) (k : Nat) (rec : CardRec) : Prop :=
  rec.record ∈ cards ∧ rec.record.id = k ∧
  (rec.record.query_type = some "native" →
    rec._serial = (rec.record.dataset_query.bind (·.native)).bind (·.query)) ∧
  (rec.record.query_type = some "query" →
    ∃ a, r.native rec.record.dataset_query = some a ∧ rec._serial = a.query) ∧
  (rec.record.query_type ≠ some "native" → rec.record.query_type ≠ some "query" →
    rec._serial = none)

/-! ## Sample inputs -/

/-- A remote with a collection `1` holding a collection `2` and a card `42`; collection `2`
holds a card `43`.  Every other children request fails. -/
def sampleRemote : Remote where
  tree := some [⟨1, some "ops", none⟩]
  items := fun id =>
    if id = 1 then some ⟨some [⟨2, none, some "collection"⟩, ⟨42, none, some "question"⟩]⟩
    else if id = 2 then some ⟨some [⟨43, none, some "question"⟩]⟩
    else none

/-- Depth rank of the collections of `sampleRemote`. -/
def sampleRank (id : Nat) : Nat := if id = 1 then 1 else 0

/-- A remote whose children request for the first root `1` fails and for the root `2`
succeeds. -/
def failingRemote : Remote where
  tree := some [⟨1, some "ops", none⟩, ⟨2, some "finance", none⟩]
  items := fun id => if id = 2 then some ⟨some []⟩ else none

/-- Three listed cards: a native one, a structured one and one of an unsupported type. -/
def sampleCards : List Card :=
  [⟨42, some "native", some ⟨some ⟨some "SELECT 1"⟩, none⟩⟩,
   ⟨43, some "query", some ⟨none, some "source-table 5"⟩⟩,
   ⟨44, some "other", none⟩]

/-- A card remote listing `sampleCards`, whose compile endpoint always answers. -/
def sampleCardRemote : CardRemote where
  cards := some sampleCards
  native := fun _ => some ⟨some "SELECT * FROM t5"⟩

/-- A repository whose commit operation fails while the head can be read. -/
def failingGit : Git where
  add := some ()
  commit := fun _ => none
  revParseHead := some "21c3d7adbb1a30755d84de6d9ce5ba53f35e0cea\n"

/-- The expansion of `sampleRemote`. -/
def sampleExpansion : List Node :=
  [.mk 1 (some "ops") none
    (some [.mk 2 none (some "collection") (some [.mk 43 none (some "question") none none]) none,
      .mk 42 none (some "question") none none]) none]

/-- The state before `buildFS` starts on an empty destination. -/
def St.init : St := ⟨FS.empty, fun _ => none, []⟩

/-! ## The filesystem calls of a run, as a function of the tree -/

/-- What `writeNode` does, read off its arguments alone (its control flow never reads the
filesystem): the filesystem calls and the Path Index assignments it issues, in order, the
objects as mutated, and the exception if one is thrown. -/
structure Plan (α : Type) where
  ops : List Op
  sets : List (Nat × Path)
  val : α
  err : Option JSError

mutual
/-- The plan of `writeNode(cardPathMapper, cardMap, node, path)`. -/
def planNode (cardMap : CardMap) : Node → Path → Plan Node
  | .mk id slug model _items _card, path =>
    if (Node.mk id slug model _items _card).isContainer then
      match join path (folderName id slug) with
      | .error e => ⟨[], [], .mk id slug model _items _card, some e⟩
      | .ok dir =>
        match _items with
        | none =>
          ⟨[.mkdir dir, .writeFile (joinStr dir (collectionMetadata id))
              (.json (.mk id slug model _items _card))], [],
            .mk id slug model _items _card, some .typeError⟩
        | some children =>
          let r := planItems cardMap children dir
          ⟨.mkdir dir :: .writeFile (joinStr dir (collectionMetadata id))
              (.json (.mk id slug model _items _card)) :: r.ops, r.sets,
            .mk id slug model (some r.val) _card, r.err⟩
    else
      match cardMap id with
      | none => ⟨[], [], .mk id slug model _items _card, none⟩
      | some cardNode =>
        if truthy cardNode._serial then
          ⟨[.writeFile (joinStr path (cardMetadata model id)) (.json (.mk id slug model _items _card)),
            .writeFile (joinStr path (cardSql model id)) (.text (render cardNode._serial))],
            [(id, path)], .mk id slug model _items (some cardNode), none⟩
        else
          ⟨[.writeFile (joinStr path (cardMetadata model id)) (.json (.mk id slug model _items _card))],
            [(id, path)], .mk id slug model _items (some cardNode), none⟩
/-- The plan of the loop of `writeNode` over a child list. -/
def planItems (cardMap : CardMap) : List Node → Path → Plan (List Node)
  | [], _ => ⟨[], [], [], none⟩
  | child :: rest, path =>
    let r := planNode cardMap child path
    match r.err with
    | some e => ⟨r.ops, r.sets, r.val :: rest, some e⟩
    | none =>
      let r' := planItems cardMap rest path
      ⟨r.ops ++ r'.ops, r.sets ++ r'.sets, r.val :: r'.val, r'.err⟩
end

/-- The filesystem `u` may come after `s`: directories stay directories, files stay files,
and a path that cannot become a directory stays so. -/
structure Later (s u : FS) : Prop where
  dir : ∀ q, s.dirAt q = true → u.dirAt q = true
  file : ∀ q, s.fileAt q = true → u.fileAt q = true
  stuck : ∀ d, s.dirAt d = false → s.blocked d = true → u.dirAt d = false

/-- The call writes a file. -/
def Op.isWrite : Op → Bool
  | .mkdir _ => false
  | .writeFile _ _ => true

/-- Two filesystem calls do not interfere: their targets differ, and a file written by one
is not on the way to the other's target. -/
def Apart (a b : Op) : Prop :=
  a.target ≠ b.target ∧ (a.isWrite = true → ¬ a.target <+: b.target) ∧
    (b.isWrite = true → ¬ b.target <+: a.target)

/-- The string begins with a decimal digit. -/
def startsWithDigit (s : String) : Bool :=
  match s.data with
  | c :: _ => c.isDigit
  | [] => false

/-- The directory name specified for a container: `<id>-<slug>` with a slug, `<id>` without. -/
def dirName (id : Nat) (slug : Option String) : String :=
  if truthy slug then toString id ++ "-" ++ render slug else toString id

/-- The children of a node (none when `_items` is absent). -/
def Node.children (n : Node) : List Node := n._items.getD []

mutual
/-- The identifiers of a node and of the nodes below it. -/
def Node.ids : Node → List Nat
  | .mk i _ _ none _ => [i]
  | .mk i _ _ (some l) _ => i :: idsOf l
/-- The identifiers of the nodes of a forest. -/
def idsOf : List Node → List Nat
  | [] => []
  | n :: l => n.ids ++ idsOf l
end

/-- The string holds no path separator. -/
def noSlash (s : String) : Bool :=
  !s.data.contains '/'

mutual
/-- No card of the subtree has a kind holding a path separator. -/
def Node.plainKinds : Node → Bool
  | .mk i s m none c => (Node.mk i s m none c).isContainer || noSlash (render m)
  | .mk _ _ _ (some l) _ => plainKindsList l
/-- No card of the forest has a kind holding a path separator. -/
def plainKindsList : List Node → Bool
  | [] => true
  | n :: l => n.plainKinds && plainKindsList l
end

mutual
/-- The names of the subtree are plain: no slug of a container and no kind of a card holds a
path separator, and no kind of a card begins with a decimal digit. -/
def Node.wellNamed : Node → Bool
  | .mk i s m none c =>
    if (Node.mk i s m none c).isContainer then noSlash (render s)
    else noSlash (render m) && !startsWithDigit (render m)
  | .mk _ s _ (some l) _ => noSlash (render s) && wellNamedList l
/-- The names of the forest are plain. -/
def wellNamedList : List Node → Bool
  | [] => true
  | n :: l => n.wellNamed && wellNamedList l
end

mutual
/-- Every container of the subtree has a slug and carries `_items`. -/
def Node.complete : Node → Bool
  | .mk i s m none c => !(Node.mk i s m none c).isContainer
  | .mk _ s _ (some l) _ => truthy s && completeList l
/-- Every container of the forest has a slug and carries `_items`. -/
def completeList : List Node → Bool
  | [] => true
  | n :: l => n.complete && completeList l
end

mutual
/-- The containers of a subtree placed in `path`, each with its directory. -/
def Node.containers : Node → Path → List (Path × Node)
  | .mk i s m none c, path =>
    if (Node.mk i s m none c).isContainer then [(path ++ [dirName i s], .mk i s m none c)]
    else []
  | .mk i s m (some l) c, path =>
    (path ++ [dirName i s], .mk i s m (some l) c) :: containersOf l (path ++ [dirName i s])
/-- The containers of a forest placed in `path`, each with its directory. -/
def containersOf : List Node → Path → List (Path × Node)
  | [], _ => []
  | n :: l, path => n.containers path ++ containersOf l path
end

mutual
/-- The leaves (cards) of a subtree placed in `path`, each with the directory of its parent. -/
def Node.leaves : Node → Path → List (Path × Node)
  | .mk i s m none c, path =>
    if (Node.mk i s m none c).isContainer then [] else [(path, .mk i s m none c)]
  | .mk i s _ (some l) _, path => leavesOf l (path ++ [dirName i s])
/-- The leaves (cards) of a forest placed in `path`, each with the directory of its parent. -/
def leavesOf : List Node → Path → List (Path × Node)
  | [], _ => []
  | n :: l, path => n.leaves path ++ leavesOf l path
end

/-- With enough fuel `getCollectionItems` resolves with the expansion of the child list. -/
theorem getCollectionItems_loop_of_expands (r : Remote) {data : List Item} {ns : List Node}
    (h : Expands r data ns) :
    ∃ N, ∀ fuel, N ≤ fuel →
      getCollectionItems.loop (getCollectionItems r fuel) data = .ok ns := by
  induction h with
  | nil => exact ⟨0, fun _ _ => rfl⟩
  | @collection e es data its ns hm hf _ _ ih1 ih2 =>
    obtain ⟨N1, h1⟩ := ih1
    obtain ⟨N2, h2⟩ := ih2
    refine ⟨max (N1 + 1) N2, fun fuel hfuel => ?_⟩
    have hN1 : N1 + 1 ≤ fuel := le_trans (le_max_left _ _) hfuel
    have hN2 : N2 ≤ fuel := le_trans (le_max_right _ _) hfuel
    obtain ⟨k, rfl⟩ : ∃ k, fuel = k + 1 := ⟨fuel - 1, by omega⟩
    have hrec : getCollectionItems r (k + 1) e.id = .ok its := by
      simp only [getCollectionItems, hf]
      exact h1 k (by omega)
    simp only [getCollectionItems.loop, hm, if_true, hrec, h2 (k + 1) hN2, Item.toNode,
      Node.setItems]
  | @artifact e es ns hm _ ih =>
    obtain ⟨N, h⟩ := ih
    refine ⟨N, fun fuel hfuel => ?_⟩
    simp only [getCollectionItems.loop, hm, if_false, h fuel hfuel, Item.toNode]

theorem getCollectionItems_of_expands (r : Remote) {id : Nat} {data : List Item}
    {ns : List Node} (hf : r.items id = some ⟨some data⟩) (h : Expands r data ns) :
    ∃ N, ∀ fuel, N ≤ fuel → getCollectionItems r fuel id = .ok ns := by
  obtain ⟨N, hN⟩ := getCollectionItems_loop_of_expands r h
  refine ⟨N + 1, fun fuel hfuel => ?_⟩
  obtain ⟨k, rfl⟩ : ∃ k, fuel = k + 1 := ⟨fuel - 1, by omega⟩
  simp only [getCollectionItems, hf]
  exact hN k (by omega)

theorem buildTree_loop_of_expandsRoots (r : Remote) {roots : List Item} {tree : List Node}
    (h : ExpandsRoots r roots tree) :
    ∃ N, ∀ fuel, N ≤ fuel → buildTree.loop r fuel roots = .ok tree := by
  induction h with
  | nil => exact ⟨0, fun _ _ => rfl⟩
  | @root e es data its ns hf hx _ ih =>
    obtain ⟨N1, h1⟩ := getCollectionItems_of_expands r hf hx
    obtain ⟨N2, h2⟩ := ih
    refine ⟨max N1 N2, fun fuel hfuel => ?_⟩
    simp only [buildTree.loop, h1 fuel (le_trans (le_max_left _ _) hfuel),
      h2 fuel (le_trans (le_max_right _ _) hfuel), Item.toNode, Node.setItems]

/-- A hierarchy of finite depth in which every needed fetch succeeds has an expansion. -/
theorem expands_exists (r : Remote) (roots : List Item)
    (hfetch : ∀ id, Reach r roots id → ∃ data, r.items id = some ⟨some data⟩)
    (rank : Nat → Nat)
    (hrank : ∀ id data e, Reach r roots id → r.items id = some ⟨some data⟩ → e ∈ data →
      e.model = some "collection" → rank e.id < rank id) :
    ∀ n id, rank id < n → Reach r roots id →
      ∃ data its, r.items id = some ⟨some data⟩ ∧ Expands r data its := by
  intro n
  induction n with
  | zero => intro id h; omega
  | succ n ih =>
    intro id hlt hreach
    obtain ⟨data, hdata⟩ := hfetch id hreach
    refine ⟨data, ?_⟩
    have key : ∀ l : List Item, (∀ e ∈ l, e ∈ data) → ∃ its, Expands r l its := by
      intro l
      induction l with
      | nil => exact fun _ => ⟨[], .nil⟩
      | cons e es ihl =>
        intro hsub
        obtain ⟨ns, hns⟩ := ihl (fun x hx => hsub x (List.mem_cons_of_mem _ hx))
        by_cases hm : e.model = some "collection"
        · have he : e ∈ data := hsub e (List.mem_cons_self _ _)
          obtain ⟨d', its', hd', hx'⟩ :=
            ih e.id (by have := hrank id data e hreach hdata he hm; omega)
              (Reach.child hreach hdata he hm)
          exact ⟨_, Expands.collection hm hd' hx' hns⟩
        · exact ⟨_, Expands.artifact hm hns⟩
    obtain ⟨its, hits⟩ := key data (fun _ h => h)
    exact ⟨its, hdata, hits⟩

/-- **C7.** For a remote hierarchy of finite depth (the children relation on collections
decreases a rank) whose fetches for the roots and for the entries of model `collection`
succeed, `buildTree` given enough fuel resolves with a tree `tree` such that
`ExpandsRoots r roots tree`: the roots in the remote's order, each root `e` returned as the
node with `e`'s id, slug and model and with `_items` the remote's child list for `e.id`, in
the remote's order, where an entry of model `collection` is in turn given as `_items` the
expansion of the child list for its id and every other entry is left without `_items`; no
fetch for an entry of another model is required. -/
theorem buildTree_returns_expansion (r : Remote) (roots : List Item)
    (htree : r.tree = some roots)
    (hfetch : ∀ id, Reach r roots id → ∃ data, r.items id = some ⟨some data⟩)
    (rank : Nat → Nat)
    (hrank : ∀ id data e, Reach r roots id → r.items id = some ⟨some data⟩ → e ∈ data →
      e.model = some "collection" → rank e.id < rank id) :
    ∃ tree N, ExpandsRoots r roots tree ∧ ∀ fuel, N ≤ fuel → buildTree r fuel = .ok tree := by
  have key : ∀ l : List Item, (∀ e ∈ l, e ∈ roots) → ∃ tree, ExpandsRoots r l tree := by
    intro l
    induction l with
    | nil => exact fun _ => ⟨[], .nil⟩
    | cons e es ihl =>
      intro hsub
      obtain ⟨ns, hns⟩ := ihl (fun x hx => hsub x (List.mem_cons_of_mem _ hx))
      obtain ⟨data, its, hd, hx⟩ :=
        expands_exists r roots hfetch rank hrank (rank e.id + 1) e.id (Nat.lt_succ_self _)
          (Reach.root (hsub e (List.mem_cons_self _ _)))
      exact ⟨_, ExpandsRoots.root hd hx hns⟩
  obtain ⟨tree, ht⟩ := key roots (fun _ h => h)
  obtain ⟨N, hN⟩ := buildTree_loop_of_expandsRoots r ht
  exact ⟨tree, N, ht, fun fuel hfuel => by simp only [buildTree, htree]; exact hN fuel hfuel⟩

theorem sampleRemote_reach {id : Nat}
    (h : Reach sampleRemote [⟨1, some "ops", none⟩] id) : id = 1 ∨ id = 2 := by
  induction h with
  | @root e he =>
    simp only [List.mem_singleton] at he
    subst he
    exact Or.inl rfl
  | @child id data e _ hitems he hm ih =>
    rcases ih with rfl | rfl
    · simp only [sampleRemote, if_true, Option.some.injEq, ItemsResponse.mk.injEq] at hitems
      subst hitems
      simp only [List.mem_cons, List.mem_singleton, List.not_mem_nil, or_false] at he
      rcases he with rfl | rfl
      · exact Or.inr rfl
      · simp at hm
    · simp only [sampleRemote, show ¬ (2 = 1) by decide, if_false, if_true, Option.some.injEq,
        ItemsResponse.mk.injEq] at hitems
      subst hitems
      simp only [List.mem_singleton] at he
      subst he
      simp at hm

theorem buildTree_sampleRemote (k : Nat) :
    buildTree sampleRemote (k + 3) = .ok sampleExpansion := rfl

/-- Witness of C7 on `sampleRemote`, where the children request for the cards `42` and `43`
would fail: with enough fuel `buildTree` resolves with `sampleExpansion`, in which the root
`1` carries `[2, 42]`, the collection `2` carries `[43]`, and the cards carry no `_items`. -/
theorem buildTree_returns_expansion_witness :
    ∃ N, ∀ fuel, N ≤ fuel → buildTree sampleRemote fuel = .ok sampleExpansion := by
  obtain ⟨tree, N, _, hN⟩ :=
    buildTree_returns_expansion sampleRemote [⟨1, some "ops", none⟩] rfl
      (by
        intro id h
        rcases sampleRemote_reach h with rfl | rfl
        · exact ⟨_, rfl⟩
        · exact ⟨_, rfl⟩)
      sampleRank
      (by
        intro id data e h hitems he hm
        rcases sampleRemote_reach h with rfl | rfl
        · simp only [sampleRemote, if_true, Option.some.injEq, ItemsResponse.mk.injEq] at hitems
          subst hitems
          simp only [List.mem_cons, List.mem_singleton, List.not_mem_nil, or_false] at he
          rcases he with rfl | rfl
          · decide
          · simp at hm
        · simp only [sampleRemote, show ¬ (2 = 1) by decide, if_false, if_true,
            Option.some.injEq, ItemsResponse.mk.injEq] at hitems
          subst hitems
          simp only [List.mem_singleton] at he
          subst he
          simp at hm)
  have h1 := hN (N + 3) (Nat.le_add_right N 3)
  rw [buildTree_sampleRemote N] at h1
  have h2 : sampleExpansion = tree := by injection h1
  subst h2
  exact ⟨N, hN⟩

theorem getCards_loop_spec (r : CardRemote) (cards : List Card) :
    ∀ (rest : List Card) (m : CardMap), (∀ c ∈ rest, c ∈ cards) →
      (∀ c ∈ rest, c.query_type = some "query" → ∃ a, r.native c.dataset_query = some a) →
      ∃ m', getCards.loop r rest m = .ok m' ∧
        (∀ k, (m' k).isSome ↔ ((m k).isSome ∨ ∃ c ∈ rest, c.id = k)) ∧
        (∀ k rec, m' k = some rec → m k = some rec ∨ Enriched r cards k rec) := by
  intro rest
  induction rest with
  | nil =>
    intro m _ _
    exact ⟨m, rfl, by simp, fun k rec h => Or.inl h⟩
  | cons c rest ih =>
    intro m hsub hcomp
    have hsub' : ∀ x ∈ rest, x ∈ cards := fun x hx => hsub x (List.mem_cons_of_mem _ hx)
    have hcomp' : ∀ x ∈ rest, x.query_type = some "query" →
        ∃ a, r.native x.dataset_query = some a :=
      fun x hx => hcomp x (List.mem_cons_of_mem _ hx)
    have hc : c ∈ cards := hsub c (List.mem_cons_self _ _)
    -- the record stored for `c`, in each branch, is enriched as specified
    have step : ∀ rec : CardRec, Enriched r cards c.id rec →
        getCards.loop r (c :: rest) m = getCards.loop r rest (m.set c.id rec) →
        ∃ m', getCards.loop r (c :: rest) m = .ok m' ∧
          (∀ k, (m' k).isSome ↔ ((m k).isSome ∨ ∃ x ∈ c :: rest, x.id = k)) ∧
          (∀ k rec, m' k = some rec → m k = some rec ∨ Enriched r cards k rec) := by
      intro rec hrec heq
      obtain ⟨m', hm', hkeys, hvals⟩ := ih (m.set c.id rec) hsub' hcomp'
      refine ⟨m', heq.trans hm', ?_, ?_⟩
      · intro k
        rw [hkeys k]
        by_cases hk : k = c.id
        · subst hk; simp [CardMap.set]
        · have : ¬ c.id = k := fun h => hk h.symm
          simp [CardMap.set, hk, this]
      · intro k rec' h
        rcases hvals k rec' h with h | h
        · by_cases hk : k = c.id
          · subst hk
            simp only [CardMap.set, if_true, Option.some.injEq] at h
            subst h
            exact Or.inr hrec
          · simp only [CardMap.set, hk, if_false] at h
            exact Or.inl h
        · exact Or.inr h
    by_cases hn : c.query_type = some "native"
    · refine step ⟨c, (c.dataset_query.bind (·.native)).bind (·.query)⟩
        ⟨hc, rfl, fun _ => rfl, fun h => ?_, fun h => absurd hn h⟩ ?_
      · simp [hn] at h
      · simp only [getCards.loop, if_pos hn]
    · by_cases hq : c.query_type = some "query"
      · obtain ⟨a, ha⟩ := hcomp c (List.mem_cons_self _ _) hq
        refine step ⟨c, a.query⟩
          ⟨hc, rfl, fun h => absurd h hn, fun _ => ⟨a, ha, rfl⟩, fun _ h => absurd hq h⟩ ?_
        simp only [getCards.loop, if_neg hn, if_pos hq, ha]
      · refine step ⟨c, none⟩
          ⟨hc, rfl, fun h => absurd h hn, fun h => absurd h hq, fun _ _ => rfl⟩ ?_
        simp only [getCards.loop, if_neg hn, if_neg hq]

/-- **C6.** For every list of card records returned by the remote, provided the compile
endpoint answers for every card of query type `query`, `getCards` resolves with a map whose
keys are exactly the records' ids; a stored record of query type `native` carries as
`_serial` its own `dataset_query?.native?.query`, one of query type `query` carries the
`query` field of the compile endpoint's answer for its `dataset_query`, and one of any other
query type carries no `_serial` and is still stored. -/
theorem getCards_returns_enriched_map (r : CardRemote) (cards : List Card)
    (hcards : r.cards = some cards)
    (hcompile : ∀ c ∈ cards, c.query_type = some "query" →
      ∃ a, r.native c.dataset_query = some a) :
    ∃ cardMap, getCards r = .ok cardMap ∧
      (∀ k, (cardMap k).isSome ↔ ∃ c ∈ cards, c.id = k) ∧
      (∀ k rec, cardMap k = some rec →
        rec.record ∈ cards ∧ rec.record.id = k ∧
        (rec.record.query_type = some "native" →
          rec._serial = (rec.record.dataset_query.bind (·.native)).bind (·.query)) ∧
        (rec.record.query_type = some "query" →
          ∃ a, r.native rec.record.dataset_query = some a ∧ rec._serial = a.query) ∧
        (rec.record.query_type ≠ some "native" → rec.record.query_type ≠ some "query" →
          rec._serial = none)) := by
  obtain ⟨m', hm', hkeys, hvals⟩ :=
    getCards_loop_spec r cards cards (fun _ => none) (fun _ h => h) hcompile
  refine ⟨m', by simp only [getCards, hcards]; exact hm', ?_, ?_⟩
  · intro k
    rw [hkeys k]
    simp
  · intro k rec h
    rcases hvals k rec h with h | h
    · simp at h
    · exact h

/-- Witness of C6 on `sampleCardRemote`. -/
theorem getCards_returns_enriched_map_witness :
    ∃ cardMap, getCards sampleCardRemote = .ok cardMap ∧
      (∀ k, (cardMap k).isSome ↔ ∃ c ∈ sampleCards, c.id = k) ∧
      (∀ rec, cardMap 42 = some rec → rec._serial = some "SELECT 1") ∧
      (∀ rec, cardMap 43 = some rec → rec._serial = some "SELECT * FROM t5") ∧
      (∀ rec, cardMap 44 = some rec → rec._serial = none) := by
  obtain ⟨cardMap, hok, hkeys, hvals⟩ :=
    getCards_returns_enriched_map sampleCardRemote sampleCards rfl
      (fun c _ _ => ⟨_, rfl⟩)
  have hmem : ∀ rec : CardRec, rec.record ∈ sampleCards →
      rec.record = ⟨42, some "native", some ⟨some ⟨some "SELECT 1"⟩, none⟩⟩ ∨
      rec.record = ⟨43, some "query", some ⟨none, some "source-table 5"⟩⟩ ∨
      rec.record = ⟨44, some "other", none⟩ := by
    intro rec h
    simpa [sampleCards] using h
  refine ⟨cardMap, hok, hkeys, ?_, ?_, ?_⟩
  · intro rec h
    obtain ⟨hin, hid, hnat, -, -⟩ := hvals 42 rec h
    rcases hmem rec hin with h1 | h1 | h1
    · rw [hnat (by rw [h1]), h1]; rfl
    · rw [h1] at hid; exact absurd hid (by decide)
    · rw [h1] at hid; exact absurd hid (by decide)
  · intro rec h
    obtain ⟨hin, hid, -, hq, -⟩ := hvals 43 rec h
    rcases hmem rec hin with h1 | h1 | h1
    · rw [h1] at hid; exact absurd hid (by decide)
    · obtain ⟨a, ha, hs⟩ := hq (by rw [h1])
      simp only [sampleCardRemote, Option.some.injEq] at ha
      rw [hs, ← ha]
    · rw [h1] at hid; exact absurd hid (by decide)
  · intro rec h
    obtain ⟨hin, hid, -, -, ho⟩ := hvals 44 rec h
    rcases hmem rec hin with h1 | h1 | h1
    · rw [h1] at hid; exact absurd hid (by decide)
    · rw [h1] at hid; exact absurd hid (by decide)
    · exact ho (by rw [h1]; decide) (by rw [h1]; decide)

/-- A failed children request makes `getCollectionItems` reject: `response` is `undefined`
and `response.data` throws. -/
theorem getCollectionItems_throws_of_failed_fetch (r : Remote) (id fuel : Nat)
    (h : r.items id = none) : getCollectionItems r (fuel + 1) id = .throws .typeError := by
  simp only [getCollectionItems, h]

/-- **C8** (evaluation at the failing input). On `failingRemote`, whose children request for
the root `1` fails, `getCollectionItems` rejects with a `TypeError` and so does `buildTree`,
whatever the fuel: the sibling root `2` is never expanded and no tree is returned. -/
theorem buildTree_rejects_on_failed_children_fetch (fuel : Nat) :
    getCollectionItems failingRemote (fuel + 1) 1 = .throws .typeError ∧
    buildTree failingRemote (fuel + 1) = .throws .typeError ∧
    ∀ tree, buildTree failingRemote fuel ≠ .ok tree := by
  have h1 : getCollectionItems failingRemote (fuel + 1) 1 = .throws .typeError :=
    getCollectionItems_throws_of_failed_fetch failingRemote 1 fuel rfl
  have htree : failingRemote.tree = some [⟨1, some "ops", none⟩, ⟨2, some "finance", none⟩] :=
    rfl
  refine ⟨h1, ?_, ?_⟩
  · simp only [buildTree, htree, buildTree.loop, h1]
  · intro tree
    cases fuel with
    | zero => simp only [buildTree, htree, buildTree.loop, getCollectionItems]; simp
    | succ k =>
      have h2 : getCollectionItems failingRemote (k + 1) 1 = .throws .typeError :=
        getCollectionItems_throws_of_failed_fetch failingRemote 1 k rfl
      simp only [buildTree, htree, buildTree.loop, h2]
      simp

/-- When the commit creates a commit, `gitCommitAll` returns its result and the commit step
ends with that commit's id. -/
theorem commitStep_of_new_commit (git : Git) (freshRepo : Bool) (res : CommitResult)
    (hadd : git.add = some ()) (hcommit : ∀ msg, git.commit msg = some res)
    (hid : res.commit ≠ "") :
    commitStep git freshRepo = .ok res.commit := by
  simp [commitStep, gitCommitAll, hadd, hcommit, hid]

/-- When nothing changed, `gitCommitAll` returns `null` and the commit step ends with the
head revision. -/
theorem commitStep_of_nothing_changed (git : Git) (freshRepo : Bool) (head : String)
    (hadd : git.add = some ()) (hcommit : ∀ msg, git.commit msg = some ⟨""⟩)
    (hhead : git.revParseHead = some head) :
    (∀ msg, gitCommitAll git msg = .ok none) ∧ commitStep git freshRepo = .ok (trim head) := by
  constructor
  · intro msg
    simp [gitCommitAll, hadd, hcommit]
  · simp [commitStep, gitCommitAll, gitGetHeadCommit, hadd, hcommit, hhead]

/-- **C9** (evaluation at the failing input). On `failingGit`, whose commit operation fails,
`gitCommitAll` does not return `null`: it rejects with a `TypeError` (`commitResult` is
`undefined` and `commitResult.commit` throws), and the commit step rejects with it instead
of falling back to the head revision, which could be read. -/
theorem commitStep_rejects_on_failed_commit :
    gitCommitAll failingGit "Sync Metabase Git" = .throws .typeError ∧
    gitCommitAll failingGit "Init Metabase Git Migration" = .throws .typeError ∧
    commitStep failingGit false = .throws .typeError ∧
    commitStep failingGit true = .throws .typeError ∧
    gitGetHeadCommit failingGit = .ok "21c3d7adbb1a30755d84de6d9ce5ba53f35e0cea" :=
  ⟨rfl, rfl, rfl, rfl, rfl⟩

/-- A container without a slug is given its raw numeric id as `folderName`; `path.join`
rejects it, so `writeNode` throws before any filesystem call and nothing is written. -/
theorem writeNode_throws_without_slug (cardMap : CardMap) (st : St) (id : Nat)
    (slug model : Option String) (items : Option (List Node)) (card : Option CardRec)
    (path : Path) (hc : (Node.mk id slug model items card).isContainer = true)
    (hslug : truthy slug = false) :
    writeNode cardMap st (.mk id slug model items card) path =
      ⟨st, .mk id slug model items card, some .typeError⟩ := by
  rw [writeNode]
  simp only [hc, if_true, folderName, hslug, join]
  simp

/-- **C3** (evaluation at the failing input). The container `{id: 7, slug: "finance"}` is
given the directory `7-finance` holding `collection-7-metadata.json`.  For the container
`{id: 9}` without a slug, `folderName` is the number `9`, not a string: `path.join` throws a
`TypeError`, `writeNode` rejects, and neither a directory `9` nor a metadata file is
created. -/
theorem writeNode_slugless_container_rejects :
    folderName 7 (some "finance") = .str "7-finance" ∧
    (writeNode (fun _ => none) St.init
        (.mk 7 (some "finance") none (some []) none) ["repo"]).st.trace.map Op.target =
      [["repo", "7-finance"], ["repo", "7-finance", "collection-7-metadata.json"]] ∧
    folderName 9 none = .num 9 ∧
    (writeNode (fun _ => none) St.init (.mk 9 none none (some []) none) ["repo"]).err =
      some .typeError ∧
    (writeNode (fun _ => none) St.init
        (.mk 9 none none (some []) none) ["repo"]).st.trace.map Op.target = [] ∧
    (writeNode (fun _ => none) St.init (.mk 9 none none (some []) none) ["repo"]).st.fs
      ["repo", "9"] = none ∧
    (writeNode (fun _ => none) St.init (.mk 9 none none (some []) none) ["repo"]).st.fs
      ["repo", "9", "collection-9-metadata.json"] = none :=
  ⟨rfl, rfl, rfl, rfl, rfl, rfl, rfl⟩

theorem writeNode_unmapped_leaf (cardMap : CardMap) (st : St) (L : Node) (path : Path)
    (hleaf : L.isContainer = false) (hmap : cardMap L.id = none) :
    writeNode cardMap st L path = ⟨st, L, none⟩ := by
  obtain ⟨id, slug, model, items, card⟩ := L
  simp only [Node.id] at hmap
  rw [writeNode]
  simp only [hleaf, hmap]
  simp

/-- **C2.** A leaf `L` whose id is not a key of the Artifact Map is skipped by `writeNode`:
the call issues no filesystem call (so neither `<model>-<id>-metadata.json` nor
`<model>-<id>.sql` is written), leaves the filesystem and the Path Index as they were, and
throws nothing; and the loop over a child list containing `L` leaves the same filesystem,
Path Index and trace, with the same outcome and the same sibling objects, as the loop over
the child list without `L`. -/
theorem writeNode_skips_unmapped_leaf (cardMap : CardMap) (L : Node)
    (hleaf : L.isContainer = false) (hmap : cardMap L.id = none) :
    (∀ st path, (writeNode cardMap st L path).st = st ∧
      (writeNode cardMap st L path).err = none) ∧
    (∀ st pre post path,
      (writeItems cardMap st (pre ++ L :: post) path).st =
        (writeItems cardMap st (pre ++ post) path).st ∧
      (writeItems cardMap st (pre ++ L :: post) path).err =
        (writeItems cardMap st (pre ++ post) path).err ∧
      (writeItems cardMap st (pre ++ L :: post) path).val =
        (writeItems cardMap st (pre ++ post) path).val.take pre.length ++
          L :: (writeItems cardMap st (pre ++ post) path).val.drop pre.length) := by
  constructor
  · intro st path
    rw [writeNode_unmapped_leaf cardMap st L path hleaf hmap]
    exact ⟨rfl, rfl⟩
  · intro st pre
    induction pre generalizing st with
    | nil =>
      intro post path
      simp only [List.nil_append, List.length_nil, List.take_zero, List.drop_zero]
      rw [writeItems, writeNode_unmapped_leaf cardMap st L path hleaf hmap]
      exact ⟨rfl, rfl, rfl⟩
    | cons x pre ih =>
      intro post path
      simp only [List.cons_append, List.length_cons]
      rw [writeItems, writeItems]
      cases h : (writeNode cardMap st x path).err with
      | some e => simp
      | none =>
        obtain ⟨h1, h2, h3⟩ := ih (writeNode cardMap st x path).st post path
        simp only [h1, h2, h3, List.take_succ_cons, List.drop_succ_cons, List.cons_append]
        simp

/-- Witness of C2: the card `42` is absent from an empty Artifact Map. -/
theorem writeNode_skips_unmapped_leaf_witness :
    (∀ st path,
      (writeNode (fun _ => none) st (.mk 42 none (some "question") none none) path).st = st ∧
      (writeNode (fun _ => none) st (.mk 42 none (some "question") none none) path).err
        = none) ∧
    (writeItems (fun _ => none) St.init
        [.mk 42 none (some "question") none none, .mk 7 (some "finance") none (some []) none]
        ["repo"]).st.trace.map Op.target =
      [["repo", "7-finance"], ["repo", "7-finance", "collection-7-metadata.json"]] := by
  have h := writeNode_skips_unmapped_leaf (fun _ => none)
    (.mk 42 none (some "question") none none) rfl rfl
  exact ⟨h.1, rfl⟩

/-! ## Induction over trees, and runs as plans -/

/-- Induction over a tree node together with its child lists. -/
theorem Node.induction {P : Node → Prop} {Q : List Node → Prop}
    (leaf : ∀ i s m c, P (.mk i s m none c))
    (node : ∀ i s m l c, Q l → P (.mk i s m (some l) c))
    (nil : Q [])
    (cons : ∀ n l, P n → Q l → Q (n :: l)) : ∀ n, P n := by
  intro n
  exact @Node.rec P (fun o => ∀ l, o = some l → Q l) Q
    (fun i s m o c ih => by
      cases o with
      | none => exact leaf i s m c
      | some l => exact node i s m l c (ih l rfl))
    (fun l h => by cases h)
    (fun l ih l' h => by cases h; exact ih)
    nil
    (fun n l ihn ihl => cons n l ihn ihl)
    n

theorem FS.dirAt_nil (fs : FS) : fs.dirAt [] = true := rfl

theorem FS.blocked_iff (fs : FS) (p : Path) :
    fs.blocked p = true ↔ ∃ q, q <+: p ∧ fs.fileAt q = true := by
  simp [FS.blocked, List.any_eq_true, List.mem_inits]

theorem Later.blocked {s u : FS} (h : Later s u) {p : Path} (hb : s.blocked p = true) :
    u.blocked p = true := by
  rw [FS.blocked_iff] at hb ⊢
  obtain ⟨q, hq, hf⟩ := hb
  exact ⟨q, hq, h.file q hf⟩

theorem Later.trans {s t u : FS} (h1 : Later s t) (h2 : Later t u) : Later s u := by
  refine ⟨fun q h => h2.dir q (h1.dir q h), fun q h => h2.file q (h1.file q h), ?_⟩
  intro d hd hb
  exact h2.stuck d (h1.stuck d hd hb) (h1.blocked hb)

theorem apart_symm {a b : Op} (h : Apart a b) : Apart b a :=
  ⟨fun e => h.1 e.symm, h.2.2, h.2.1⟩

end MetabaseGitSync
